import Mathlib

/-!
Verification of the Silk atomic-CSS core.

The development shallowly embeds the TypeScript sources of the repository:

* `packages/core/src/atomic.ts` — the `AtomicCSSRegistry` class
  (`registerAtom`, `generateAtomicCSS`, `export`/`import`).
* `packages/core/src/critical-css.ts` — the `CriticalCSSExtractor` class
  (`isCritical`, `extract`, `markCritical`, `markNonCritical`, `autoDetect`,
  `reset`).
* the babel plugin's CSS generator (`generateAtomicCSS` in
  `packages/babel-plugin-silk/src/index.ts`) together with the CSS helper
  functions (`normalizeCSSValue`, `resolveCSSProperty`, pseudo handling).

JavaScript strings are modelled as `List Char` (`JSString`); JavaScript `Map`
and `Set` objects are modelled as association lists / lists that keep the
JavaScript insertion-order semantics (`Map.set` updates in place or appends,
`Set.add` appends when absent).  32-bit integer arithmetic is modelled on
`Nat` with explicit reduction modulo `2 ^ 32`.
-/

/-- JavaScript strings, modelled as their list of characters. -/
abbrev JSString := List Char

namespace Silk

/-! ### JavaScript `Map` and `Set` semantics on association lists -/

/-- `Map.get`: first binding of the key, if any. -/
def mapGet {α β : Type} [DecidableEq α] (k : α) : List (α × β) → Option β
  | [] => none
  | (k1, v1) :: rest => if k1 = k then some v1 else mapGet k rest

/-- `Map.set`: update the binding in place if the key is present, otherwise
append the new binding (JavaScript `Map` keeps insertion order). -/
def mapSet {α β : Type} [DecidableEq α] (k : α) (v : β) : List (α × β) → List (α × β)
  | [] => [(k, v)]
  | (k1, v1) :: rest => if k1 = k then (k, v) :: rest else (k1, v1) :: mapSet k v rest

/-- `Set.add`: append the element when absent, otherwise keep the set. -/
def setAdd {α : Type} [DecidableEq α] (x : α) (s : List α) : List α :=
  if x ∈ s then s else s ++ [x]

/-- `Set.delete`: remove the element. -/
def setDel {α : Type} [DecidableEq α] (x : α) (s : List α) : List α :=
  s.filter (fun y => y ≠ x)

/-! ### Basic string helpers shared by the embedded functions -/

/-- The whitespace characters relevant to the embedding (`\s` on the ASCII
range as used by `trim` and `replace(/\s+/g, ' ')`). -/
def isWhite (c : Char) : Bool :=
  c = ' ' || c = '\t' || c = '\n' || c = '\r'

/-- JavaScript `String.prototype.trim`. -/
def jsTrim (s : JSString) : JSString :=
  ((s.dropWhile isWhite).reverse.dropWhile isWhite).reverse

/-- State machine for `replace(/\s+/g, ' ')`: every maximal run of whitespace
becomes a single space. -/
def collapseWsAux : Bool → JSString → JSString
  | _, [] => []
  | prevWhite, c :: rest =>
    if isWhite c then
      if prevWhite then collapseWsAux true rest
      else ' ' :: collapseWsAux true rest
    else c :: collapseWsAux false rest

/-- JavaScript `value.replace(/\s+/g, ' ')`. -/
def collapseWs (s : JSString) : JSString := collapseWsAux false s

/-- `property.replace(/[A-Z]/g, (m) => ·-${m.toLowerCase()}·)`:
camelCase to kebab-case as done in `normalizeAtomKey` and `camelToKebab`. -/
def camelKebab (s : JSString) : JSString :=
  s.flatMap fun c =>
    if 'A' ≤ c ∧ c ≤ 'Z' then ['-', Char.ofNat (c.toNat + 32)] else [c]

/-- Decimal digit character. -/
def digitChar (n : Nat) : Char := Char.ofNat (48 + n)

/-- Base-36 digit character (`0`-`9`, `a`-`z`), as produced by
JavaScript `Number.prototype.toString(36)`. -/
def digit36 (n : Nat) : Char :=
  if n < 10 then Char.ofNat (48 + n) else Char.ofNat (87 + n)

/-- Fuelled helper for decimal rendering. -/
def natToDecAux : Nat → Nat → JSString
  | 0, _ => []
  | fuel + 1, n =>
    if n < 10 then [digitChar n]
    else natToDecAux fuel (n / 10) ++ [digitChar (n % 10)]

/-- Decimal rendering of a natural number (JS integer `toString()`). -/
def natToDec (n : Nat) : JSString := natToDecAux (n + 1) n

/-- Fuelled helper for base-36 rendering. -/
def natTo36Aux : Nat → Nat → JSString
  | 0, _ => []
  | fuel + 1, n =>
    if n < 36 then [digit36 n]
    else natTo36Aux fuel (n / 36) ++ [digit36 (n % 36)]

/-- Base-36 rendering of a natural number (JS `toString(36)`). -/
def natTo36 (n : Nat) : JSString := natTo36Aux (n + 1) n

/-! ### The repository hash (MurmurHash2 variant)

The 32-bit mix used throughout the repository, as written in the in-source
consistency test (`src/unnamed/part_008`):

```js
let h = 0
for (let i = 0; i < str.length; i++) {
  const c = str.charCodeAt(i)
  h = Math.imul(h ^ c, 0x5bd1e995)
  h ^= h >>> 13
}
return (h >>> 0).toString(36)
```

`h` is tracked through its unsigned 32-bit view: `Math.imul` is
multiplication modulo `2 ^ 32` and `>>> 13` is division by `2 ^ 13`. -/

/-- One round of the MurmurHash2 mix on the unsigned 32-bit view. -/
def murmurStep (h c : Nat) : Nat :=
  let h1 := ((h ^^^ c) * 0x5bd1e995) % 4294967296
  h1 ^^^ (h1 / 8192)

/-- The repository's `murmurHash2` as a 32-bit value (before base-36
encoding).  Character codes are the Unicode code points, which agree with
UTF-16 code units on the ASCII inputs handled here. -/
def murmurHash2Num (s : JSString) : Nat :=
  s.foldl (fun h c => murmurStep h c.toNat) 0

/-- The repository's `murmurHash2`, result encoded in base 36. -/
def murmurHash2 (s : JSString) : JSString := natTo36 (murmurHash2Num s)

/-! ### The short-name generator

`generateShortClassName` lives in `packages/core/src/production.ts`, which is
not among the provided sources — only its re-export
(`src/unnamed/part_009`) and its caller (`packages/core/src/atomic.ts`)
are. -/

/-- Modelled from the spec: `generateShortClassName` from
`packages/core/src/production.ts` is missing from the provided sources.
Per spec §3/§4.3 the namer is a pure function of the AtomKey content: the
repository's 32-bit avalanche hash (the MurmurHash2 mix replicated by the
in-source consistency test) encoded in a compact base, with a non-digit
leading guard character when needed. -/
def generateShortClassName (atomKey : JSString) : JSString :=
  match natTo36 (murmurHash2Num atomKey) with
  | [] => ['a']
  | c :: rest => if c.isDigit then 'a' :: c :: rest else c :: rest

/-! ### `AtomicCSSRegistry` (packages/core/src/atomic.ts) -/

/-- The mutable state of an `AtomicCSSRegistry`:
`atoms : Map<atomKey, className>`, `usage : Map<className, count>`,
`reverseMap : Map<className, atomKey>`. -/
structure Registry where
  atoms : List (JSString × JSString)
  usage : List (JSString × Nat)
  reverseMap : List (JSString × JSString)
deriving DecidableEq

/-- A freshly constructed registry. -/
def emptyRegistry : Registry := ⟨[], [], []⟩

/-- The normalized property name used in `normalizeAtomKey`. -/
def normProp (property : JSString) : JSString := camelKebab property

/-- The normalized value used in `normalizeAtomKey`
(`value.trim().replace(/\s+/g, ' ')`). -/
def normVal (value : JSString) : JSString := collapseWs (jsTrim value)

/-- `AtomicCSSRegistry.normalizeAtomKey`. -/
def normalizeAtomKey (property value : JSString) : JSString :=
  normProp property ++ [':', ':'] ++ normVal value

/-- `AtomicCSSRegistry.registerAtom`: returns the class name and the updated
registry state. -/
def registerAtom (property value : JSString) (r : Registry) : JSString × Registry :=
  let atomKey := normalizeAtomKey property value
  match mapGet atomKey r.atoms with
  | some className =>
    (className,
      { r with usage := mapSet className ((mapGet className r.usage).getD 0 + 1) r.usage })
  | none =>
    let className := generateShortClassName atomKey
    (className,
      { atoms := mapSet atomKey className r.atoms
        usage := mapSet className 1 r.usage
        reverseMap := mapSet className atomKey r.reverseMap })

/-- Register a list of declarations in order, returning the final state. -/
def buildRegistry (ds : List (JSString × JSString)) : Registry :=
  ds.foldl (fun r d => (registerAtom d.1 d.2 r).2) emptyRegistry

/-! ### JavaScript `String.prototype.split` with a string separator -/

/-- Leftmost occurrence of a (nonempty) separator: returns the part before
and the part after the first occurrence. -/
def splitOnce (sep : JSString) : JSString → Option (JSString × JSString)
  | [] => if sep = [] then some ([], []) else none
  | c :: rest =>
    if sep.isPrefixOf (c :: rest) then some ([], (c :: rest).drop sep.length)
    else (splitOnce sep rest).map fun p => (c :: p.1, p.2)

/-- Fuelled split loop: split on every occurrence of the separator,
left to right. -/
def jsSplitAux (sep : JSString) : Nat → JSString → List JSString
  | 0, s => [s]
  | fuel + 1, s =>
    match splitOnce sep s with
    | none => [s]
    | some (a, b) => a :: jsSplitAux sep fuel b

/-- JavaScript `s.split(sep)` for a nonempty string separator. -/
def jsSplit (sep s : JSString) : List JSString := jsSplitAux sep (s.length + 1) s

/-- JavaScript `s.split(c)` for a single-character separator is the common
case `selector.split(',')`. -/
def jsSplitChar (c : Char) (s : JSString) : List JSString := jsSplit [c] s

/-- Concatenate a list of strings (JS `Array.prototype.join('')`). -/
def joinAll (l : List JSString) : JSString := l.flatten

/-- JS `Array.prototype.join(sep)`. -/
def joinSep (sep : JSString) : List JSString → JSString
  | [] => []
  | [x] => x
  | x :: y :: rest => x ++ sep ++ joinSep sep (y :: rest)

/-! ### `AtomicCSSRegistry.generateAtomicCSS` and `export`/`import` -/

/-- The rule emitted for one entry of the `atoms` map:
`const [property, value] = atomKey.split('::')` followed by the
`if (!property || !value) continue` guard and
``rules.push(`.${className}{${property}:${value}}`)``. -/
def ruleOfAtom (entry : JSString × JSString) : Option JSString :=
  let parts := jsSplit [':', ':'] entry.1
  let property := parts.getD 0 []
  let value := parts.getD 1 []
  if property = [] ∨ value = [] then none
  else some ('.' :: entry.2 ++ '\x7b' :: property ++ ':' :: value ++ ['\x7d'])

/-- `AtomicCSSRegistry.generateAtomicCSS`: one rule per atom of the map,
in insertion order, joined with `''`. -/
def generateAtomicCSSRegistry (r : Registry) : JSString :=
  joinAll (r.atoms.filterMap ruleOfAtom)

/-- The data produced by `AtomicCSSRegistry.export`. -/
structure RegistryExport where
  atoms : List (JSString × JSString)
  usage : List (JSString × Nat)
deriving DecidableEq

/-- `AtomicCSSRegistry.export`. -/
def registryExport (r : Registry) : RegistryExport :=
  ⟨r.atoms, r.usage⟩

/-- The reverse-map rebuild loop of `AtomicCSSRegistry.import`. -/
def rebuildReverse (atoms : List (JSString × JSString)) : List (JSString × JSString) :=
  atoms.foldl (fun acc e => mapSet e.2 e.1 acc) []

/-- `AtomicCSSRegistry.import`: replaces the maps wholesale and rebuilds the
reverse map. -/
def registryImport (_r : Registry) (data : RegistryExport) : Registry :=
  { atoms := data.atoms
    usage := data.usage
    reverseMap := rebuildReverse data.atoms }

/-! ### Association-list lemmas -/

theorem mapGet_some_mem {α β : Type} [DecidableEq α] {k : α} {v : β} :
    ∀ {l : List (α × β)}, mapGet k l = some v → (k, v) ∈ l := by
  intro l
  induction l with
  | nil => intro h; simp [mapGet] at h
  | cons e rest ih =>
    intro h
    obtain ⟨k1, v1⟩ := e
    simp only [mapGet] at h
    split at h
    · next heq =>
      injection h with h
      subst heq; subst h
      exact List.mem_cons_self _ _
    · exact List.mem_cons_of_mem _ (ih h)

theorem mapSet_of_get_none {α β : Type} [DecidableEq α] {k : α} (v : β) :
    ∀ {l : List (α × β)}, mapGet k l = none → mapSet k v l = l ++ [(k, v)] := by
  intro l
  induction l with
  | nil => intro _; simp [mapSet]
  | cons e rest ih =>
    intro h
    obtain ⟨k1, v1⟩ := e
    simp only [mapGet] at h
    split at h
    · cases h
    · next hne =>
      simp only [mapSet, if_neg hne, List.cons_append, ih h]

/-! ### Registry invariant: every stored class name is the pure hash of its
atom key -/

/-- The registry never stores anything but the pure namer's output. -/
def RegInv (r : Registry) : Prop :=
  ∀ e ∈ r.atoms, e.2 = generateShortClassName e.1

theorem regInv_empty : RegInv emptyRegistry := by
  intro e he; simp [emptyRegistry] at he

theorem mem_mapSet {α β : Type} [DecidableEq α] {k : α} {v : β} :
    ∀ {l : List (α × β)} {e : α × β}, e ∈ mapSet k v l → e = (k, v) ∨ e ∈ l := by
  intro l
  induction l with
  | nil => intro e he; simp [mapSet] at he; exact Or.inl he
  | cons hd rest ih =>
    intro e he
    cases hd with
    | mk k1 v1 =>
      simp only [mapSet] at he
      by_cases hk : k1 = k
      · rw [if_pos hk] at he
        rcases List.mem_cons.mp he with h | h
        · exact Or.inl h
        · exact Or.inr (List.mem_cons_of_mem _ h)
      · rw [if_neg hk] at he
        rcases List.mem_cons.mp he with h | h
        · exact Or.inr (h ▸ List.mem_cons_self _ _)
        · rcases ih h with h1 | h1
          · exact Or.inl h1
          · exact Or.inr (List.mem_cons_of_mem _ h1)

theorem regInv_registerAtom {r : Registry} (h : RegInv r) (p v : JSString) :
    RegInv (registerAtom p v r).2 := by
  intro e he
  rcases hg : mapGet (normalizeAtomKey p v) r.atoms with _ | c
  · simp only [registerAtom, hg] at he
    rcases mem_mapSet he with h1 | h1
    · rw [h1]
    · exact h e h1
  · simp only [registerAtom, hg] at he
    exact h e he

theorem registerAtom_fst {r : Registry} (h : RegInv r) (p v : JSString) :
    (registerAtom p v r).1 = generateShortClassName (normalizeAtomKey p v) := by
  rcases hg : mapGet (normalizeAtomKey p v) r.atoms with _ | c
  · simp only [registerAtom, hg]
  · simp only [registerAtom, hg]
    exact h _ (mapGet_some_mem hg)

theorem regInv_buildRegistry (ds : List (JSString × JSString)) :
    RegInv (buildRegistry ds) := by
  unfold buildRegistry
  suffices h : ∀ r : Registry, RegInv r →
      RegInv (ds.foldl (fun r d => (registerAtom d.1 d.2 r).2) r) by
    exact h emptyRegistry regInv_empty
  induction ds with
  | nil => intro r hr; exact hr
  | cons d rest ih =>
    intro r hr
    exact ih _ (regInv_registerAtom hr d.1 d.2)

/-- C1 helper: on any registry reachable by registrations, `registerAtom`
returns exactly the pure namer's output for the declaration's atom key. -/
theorem registerAtom_buildRegistry_fst (ds : List (JSString × JSString))
    (p v : JSString) :
    (registerAtom p v (buildRegistry ds)).1
      = generateShortClassName (normalizeAtomKey p v) :=
  registerAtom_fst (regInv_buildRegistry ds) p v

/-- C1: The identifier (class name) produced for a style atom is a pure
function of its AtomKey content: registering a declaration in two freshly
constructed registries, after arbitrary and differently-ordered prior
registration sequences, yields the same identifier — namely the pure namer
applied to the normalized atom key — and hence the same emitted rule text
for that atom. -/
theorem identifier_pure_function_of_atomKey
    (ds1 ds2 : List (JSString × JSString)) (p v : JSString) :
    (registerAtom p v (buildRegistry ds1)).1
        = (registerAtom p v (buildRegistry ds2)).1
      ∧ (registerAtom p v (buildRegistry ds1)).1
        = generateShortClassName (normalizeAtomKey p v)
      ∧ ruleOfAtom (normalizeAtomKey p v, (registerAtom p v (buildRegistry ds1)).1)
        = ruleOfAtom (normalizeAtomKey p v, (registerAtom p v (buildRegistry ds2)).1) := by
  refine ⟨?_, registerAtom_buildRegistry_fst ds1 p v, ?_⟩
  · rw [registerAtom_buildRegistry_fst ds1 p v, registerAtom_buildRegistry_fst ds2 p v]
  · rw [registerAtom_buildRegistry_fst ds1 p v, registerAtom_buildRegistry_fst ds2 p v]

/-! ### C3: registration idempotence and exact usage counting -/

/-- The registry after calling `registerAtom(property, value)` `n` times on a
freshly constructed registry. -/
def regIter (p v : JSString) : Nat → Registry
  | 0 => emptyRegistry
  | n + 1 => (registerAtom p v (regIter p v n)).2

theorem regIter_state (p v : JSString) :
    ∀ n, 1 ≤ n →
      regIter p v n =
        ⟨[(normalizeAtomKey p v, generateShortClassName (normalizeAtomKey p v))],
         [(generateShortClassName (normalizeAtomKey p v), n)],
         [(generateShortClassName (normalizeAtomKey p v), normalizeAtomKey p v)]⟩ := by
  intro n
  induction n with
  | zero => intro h; cases h
  | succ m ih =>
    intro _
    rcases Nat.eq_zero_or_pos m with hm | hm
    · subst hm
      simp [regIter, registerAtom, emptyRegistry, mapGet, mapSet]
    · show (registerAtom p v (regIter p v m)).2 = _
      rw [ih hm]
      simp [registerAtom, mapGet, mapSet]

/-- C3: `registerAtom(d)` called `N ≥ 1` times on one registry returns the
same identifier on every call, and afterwards the usage count recorded for
that identifier is exactly `N` (first call initializes it to 1, every hit
increments it by 1). -/
theorem registerAtom_idempotent_usage (p v : JSString) (N : Nat) (hN : 1 ≤ N) :
    (∀ k, k < N →
        (registerAtom p v (regIter p v k)).1
          = generateShortClassName (normalizeAtomKey p v))
      ∧ mapGet (generateShortClassName (normalizeAtomKey p v)) (regIter p v N).usage
          = some N := by
  constructor
  · intro k _
    exact registerAtom_fst (by
      rcases Nat.eq_zero_or_pos k with hk | hk
      · subst hk; exact regInv_empty
      · rw [regIter_state p v k hk]
        intro e he
        simp only [List.mem_singleton] at he
        rw [he]) p v
  · rw [regIter_state p v N hN]
    simp [mapGet]

/-- Witness for C3 at `N = 3`. -/
theorem registerAtom_idempotent_usage_witness :
    1 ≤ 3
      ∧ mapGet (generateShortClassName (normalizeAtomKey "color".data "red".data))
          (regIter "color".data "red".data 3).usage = some 3 :=
  ⟨by decide,
    (registerAtom_idempotent_usage "color".data "red".data 3 (by decide)).2⟩

/-! ### C9: export/import round-trip -/

/-- C9: importing the result of `export()` into a fresh registry reproduces
the atom map and the usage map exactly, rebuilds the reverse map from the
imported atom entries, and a subsequent `registerAtom` of any previously
registered declaration returns the stored identifier (the atom-map hit path)
rather than generating a new one. -/
theorem export_import_roundtrip (r : Registry) (p v : JSString) (c : JSString) :
    (registryImport emptyRegistry (registryExport r)).atoms = r.atoms
      ∧ (registryImport emptyRegistry (registryExport r)).usage = r.usage
      ∧ (registryImport emptyRegistry (registryExport r)).reverseMap
          = rebuildReverse r.atoms
      ∧ (mapGet (normalizeAtomKey p v) r.atoms = some c →
          (registerAtom p v (registryImport emptyRegistry (registryExport r))).1 = c) := by
  refine ⟨rfl, rfl, rfl, fun h => ?_⟩
  simp only [registerAtom, registryImport, registryExport, h]

/-- A registry holding one registered atom, used as the round-trip witness. -/
def roundtripReg : Registry :=
  (registerAtom "color".data "red".data emptyRegistry).2

/-- Witness for C9 on a registry with one registered declaration. -/
theorem export_import_roundtrip_witness :
    mapGet (normalizeAtomKey "color".data "red".data) roundtripReg.atoms
        = some (generateShortClassName (normalizeAtomKey "color".data "red".data))
      ∧ (registerAtom "color".data "red".data
            (registryImport emptyRegistry (registryExport roundtripReg))).1
        = generateShortClassName (normalizeAtomKey "color".data "red".data) :=
  ⟨by decide,
    (export_import_roundtrip roundtripReg "color".data "red".data _).2.2.2 (by decide)⟩

/-! ### Splitting lemmas for atom keys -/

theorem splitOnce_append (a b : JSString) (ha : ':' ∉ a) :
    splitOnce [':', ':'] (a ++ ':' :: ':' :: b) = some (a, b) := by
  induction a with
  | nil =>
    simp [splitOnce, List.isPrefixOf]
  | cons c rest ih =>
    have hc : c ≠ ':' := fun h => ha (h ▸ List.mem_cons_self _ _)
    have hrest : ':' ∉ rest := fun h => ha (List.mem_cons_of_mem _ h)
    have hbeq : ((':' : Char) == c) = false := beq_eq_false_iff_ne.mpr (Ne.symm hc)
    simp only [List.cons_append, splitOnce, List.isPrefixOf]
    simp [hbeq, ih hrest]

theorem splitOnce_none (s : JSString) (h : ':' ∉ s) :
    splitOnce [':', ':'] s = none := by
  induction s with
  | nil => simp [splitOnce]
  | cons c rest ih =>
    have hc : c ≠ ':' := fun hh => h (hh ▸ List.mem_cons_self _ _)
    have hrest : ':' ∉ rest := fun hh => h (List.mem_cons_of_mem _ hh)
    have hbeq : ((':' : Char) == c) = false := beq_eq_false_iff_ne.mpr (Ne.symm hc)
    simp only [splitOnce, List.isPrefixOf]
    simp [hbeq, ih hrest]

theorem jsSplitAux_of_none {sep s : JSString} (h : splitOnce sep s = none) :
    ∀ fuel, jsSplitAux sep fuel s = [s] := by
  intro fuel
  cases fuel with
  | zero => rfl
  | succ f => simp [jsSplitAux, h]

theorem jsSplit_key (p v : JSString) (hp : ':' ∉ p) (hv : ':' ∉ v) :
    jsSplit [':', ':'] (p ++ ':' :: ':' :: v) = [p, v] := by
  have hlen : (p ++ ':' :: ':' :: v).length + 1 = (p.length + v.length + 2) + 1 := by
    simp [List.length_append]; omega
  rw [jsSplit, hlen]
  rw [jsSplitAux, splitOnce_append p v hp]
  show p :: jsSplitAux [':', ':'] (p.length + v.length + 2) v = [p, v]
  rw [jsSplitAux_of_none (splitOnce_none v hv)]

theorem normalizeAtomKey_eq (p v : JSString) :
    normalizeAtomKey p v = normProp p ++ ':' :: ':' :: normVal v := by
  simp [normalizeAtomKey, List.append_assoc]

/-- The good atoms for CSS generation: nonempty, colon-free normalized
property and value (their atom key then splits back into the two parts). -/
def goodDecl (d : JSString × JSString) : Prop :=
  ':' ∉ normProp d.1 ∧ ':' ∉ normVal d.2 ∧ normProp d.1 ≠ [] ∧ normVal d.2 ≠ []

instance : DecidablePred goodDecl := fun d => by
  unfold goodDecl; infer_instance

theorem ruleOfAtom_of_good {d : JSString × JSString} (h : goodDecl d) (cls : JSString) :
    ruleOfAtom (normalizeAtomKey d.1 d.2, cls)
      = some ('.' :: cls ++ '\x7b' :: normProp d.1 ++ ':' :: normVal d.2 ++ ['\x7d']) := by
  obtain ⟨h1, h2, h3, h4⟩ := h
  simp only [ruleOfAtom, normalizeAtomKey_eq, jsSplit_key _ _ h1 h2]
  simp [h3, h4]

/-! ### C7: the atoms map records registrations in insertion order -/

/-- The expected entries of the atom map after registering `ds` with
pairwise distinct atom keys. -/
def atomEntries (ds : List (JSString × JSString)) : List (JSString × JSString) :=
  ds.map fun d =>
    (normalizeAtomKey d.1 d.2, generateShortClassName (normalizeAtomKey d.1 d.2))

theorem mapGet_append_of_none {α β : Type} [DecidableEq α] {k : α}
    {l1 : List (α × β)} (l2 : List (α × β)) (h : mapGet k l1 = none) :
    mapGet k (l1 ++ l2) = mapGet k l2 := by
  induction l1 with
  | nil => rfl
  | cons e rest ih =>
    obtain ⟨k1, v1⟩ := e
    simp only [mapGet] at h
    split at h
    · cases h
    · next hne => simp only [List.cons_append, mapGet, if_neg hne]; exact ih h

/-- Distinctness of atom keys along a registration sequence. -/
def KeysDistinct (ds : List (JSString × JSString)) : Prop :=
  ds.Pairwise fun a b => normalizeAtomKey a.1 a.2 ≠ normalizeAtomKey b.1 b.2

instance : DecidablePred KeysDistinct := fun ds => by
  unfold KeysDistinct; infer_instance

theorem foldl_register_atoms :
    ∀ (ds : List (JSString × JSString)) (r : Registry),
      (∀ d ∈ ds, mapGet (normalizeAtomKey d.1 d.2) r.atoms = none) →
      KeysDistinct ds →
      (ds.foldl (fun r d => (registerAtom d.1 d.2 r).2) r).atoms
        = r.atoms ++ atomEntries ds := by
  intro ds
  induction ds with
  | nil => intro r _ _; simp [atomEntries]
  | cons d rest ih =>
    intro r hnone hdist
    have hd : mapGet (normalizeAtomKey d.1 d.2) r.atoms = none :=
      hnone d (List.mem_cons_self _ _)
    have hstep : (registerAtom d.1 d.2 r).2.atoms
        = r.atoms ++ [(normalizeAtomKey d.1 d.2,
            generateShortClassName (normalizeAtomKey d.1 d.2))] := by
      simp only [registerAtom, hd]
      exact mapSet_of_get_none _ hd
    have hdistRest : KeysDistinct rest := (List.pairwise_cons.mp hdist).2
    have hkeys : ∀ d1 ∈ rest, normalizeAtomKey d.1 d.2 ≠ normalizeAtomKey d1.1 d1.2 :=
      (List.pairwise_cons.mp hdist).1
    have hnoneRest : ∀ d1 ∈ rest,
        mapGet (normalizeAtomKey d1.1 d1.2) (registerAtom d.1 d.2 r).2.atoms = none := by
      intro d1 hmem
      rw [hstep,
        mapGet_append_of_none _ (hnone d1 (List.mem_cons_of_mem _ hmem))]
      simp only [mapGet]
      rw [if_neg (hkeys d1 hmem)]
    calc ((d :: rest).foldl (fun r d => (registerAtom d.1 d.2 r).2) r).atoms
        = (rest.foldl (fun r d => (registerAtom d.1 d.2 r).2)
            (registerAtom d.1 d.2 r).2).atoms := by rfl
      _ = (registerAtom d.1 d.2 r).2.atoms ++ atomEntries rest :=
          ih _ hnoneRest hdistRest
      _ = r.atoms ++ atomEntries (d :: rest) := by
          rw [hstep]
          simp [atomEntries, List.append_assoc]

theorem buildRegistry_atoms (ds : List (JSString × JSString))
    (hdist : KeysDistinct ds) :
    (buildRegistry ds).atoms = atomEntries ds := by
  have h := foldl_register_atoms ds emptyRegistry (by intro d _; rfl) hdist
  simpa [buildRegistry, emptyRegistry] using h

theorem filterMap_eq_map_of_forall {α β : Type} (f : α → Option β) (g : α → β) :
    ∀ l : List α, (∀ x ∈ l, f x = some (g x)) → l.filterMap f = l.map g := by
  intro l
  induction l with
  | nil => intro _; rfl
  | cons x rest ih =>
    intro h
    rw [List.filterMap_cons, h x (List.mem_cons_self _ _), List.map_cons,
      ih fun y hy => h y (List.mem_cons_of_mem _ hy)]

/-- C7 counterexample: an atom registered with an empty value is present in
the registry's atom map but `generateAtomicCSS` emits no rule for it (its
`atomKey.split('::')` value component is empty and the
`if (!property || !value) continue` guard skips it), so the generated
stylesheet does not contain one rule per registered atom. -/
theorem generateCSS_skips_empty_value_atom :
    ((registerAtom "color".data [] emptyRegistry).2).atoms.length = 1
      ∧ generateAtomicCSSRegistry (registerAtom "color".data [] emptyRegistry).2 = [] := by
  constructor
  · rfl
  · rfl

/-- C7 (amended): for every sequence of successful `registerAtom` calls with
pairwise distinct atom keys whose normalized property and value components
are nonempty (and colon-free, so the key splits back into exactly those two
components), the generated stylesheet is exactly one rule per registered
atom, ordered by first registration; atoms with an empty property or value
component are skipped. -/
theorem generateCSS_one_rule_per_atom (ds : List (JSString × JSString))
    (hgood : ∀ d ∈ ds, goodDecl d) (hdist : KeysDistinct ds) :
    generateAtomicCSSRegistry (buildRegistry ds)
      = joinAll (ds.map fun d =>
          '.' :: generateShortClassName (normalizeAtomKey d.1 d.2)
            ++ '\x7b' :: normProp d.1 ++ ':' :: normVal d.2 ++ ['\x7d']) := by
  unfold generateAtomicCSSRegistry
  rw [buildRegistry_atoms ds hdist, atomEntries, List.filterMap_map]
  rw [filterMap_eq_map_of_forall _ _ ds fun d hd => ?_]
  exact ruleOfAtom_of_good (hgood d hd) _

/-- The two-declaration registration sequence used as the C7 witness. -/
def cssOrderDecls : List (JSString × JSString) :=
  [("color".data, "red".data), ("margin".data, "0".data)]

/-- Witness for C7 (amended) on two distinct good declarations. -/
theorem generateCSS_one_rule_per_atom_witness :
    (∀ d ∈ cssOrderDecls, goodDecl d)
      ∧ KeysDistinct cssOrderDecls
      ∧ generateAtomicCSSRegistry (buildRegistry cssOrderDecls)
        = joinAll (cssOrderDecls.map fun d =>
            '.' :: generateShortClassName (normalizeAtomKey d.1 d.2)
              ++ '\x7b' :: normProp d.1 ++ ':' :: normVal d.2 ++ ['\x7d']) :=
  ⟨by decide, by decide,
    generateCSS_one_rule_per_atom cssOrderDecls (by decide) (by decide)⟩

/-! ### `CriticalCSSExtractor` (packages/core/src/critical-css.ts)

The configuration is modelled by the fields that influence the embedded
operations (`enabled`, `forceInclude`, `exclude`); the remaining fields of
`CriticalCSSConfig` (`viewport`, `inline`, `defer`, `threshold`) are not read
by any of the modelled methods. -/

structure CriticalConfig where
  enabled : Bool := false
  forceInclude : List JSString := []
  exclude : List JSString := []
deriving DecidableEq

/-- The two selector sets held by a `CriticalCSSExtractor`. -/
structure CritState where
  criticalSelectors : List JSString := []
  nonCriticalSelectors : List JSString := []
deriving DecidableEq

/-- The state of a freshly constructed extractor. -/
def initialCritState : CritState := ⟨[], []⟩

/-- JavaScript `haystack.includes(needle)`. -/
def containsSub (needle : JSString) : JSString → Bool
  | [] => needle.isPrefixOf []
  | c :: rest => needle.isPrefixOf (c :: rest) || containsSub needle rest

/-- `CriticalCSSExtractor.markCritical`. -/
def markCritical (st : CritState) (selector : JSString) : CritState :=
  ⟨setAdd selector st.criticalSelectors, setDel selector st.nonCriticalSelectors⟩

/-- `CriticalCSSExtractor.markNonCritical`. -/
def markNonCritical (st : CritState) (selector : JSString) : CritState :=
  ⟨setDel selector st.criticalSelectors, setAdd selector st.nonCriticalSelectors⟩

/-- `CriticalCSSExtractor.isCritical`: force-include patterns are tested
first, then the exclude patterns, then membership in the critical set. -/
def isCritical (cfg : CriticalConfig) (st : CritState) (selector : JSString) : Bool :=
  if cfg.forceInclude.any (fun pat => containsSub pat selector) then true
  else if cfg.exclude.any (fun pat => containsSub pat selector) then false
  else st.criticalSelectors.contains selector

/-! #### The rule scanner

`extract` and `autoDetect` both iterate
`/([^{]+)\s*\{([^}]+)\}/g . exec(css)`.  `findRuleMatch` embeds the leftmost
match of that pattern: the greedy `[^{]+` runs up to the first `{` after the
match start (the `\s*` part never consumes anything, so capture 1 keeps its
trailing whitespace, trimmed later by the caller), and `[^}]+` requires at
least one non-`}` character before the closing `}`.  A match can only start
on a non-`{` character; when the first candidate brace pair has an empty
body the engine resumes at the position right after the opening brace. -/

def findRuleMatch : Nat → JSString → Option (JSString × JSString × JSString)
  | 0, _ => none
  | fuel + 1, s =>
    let s1 := s.dropWhile (fun c => c == '\x7b')
    let sel := s1.takeWhile (fun c => c != '\x7b')
    match s1.dropWhile (fun c => c != '\x7b') with
    | [] => none
    | _ :: afterOpen =>
      let decl := afterOpen.takeWhile (fun c => c != '\x7d')
      match afterOpen.dropWhile (fun c => c != '\x7d') with
      | [] => none
      | _ :: afterClose =>
        if decl = [] then findRuleMatch fuel afterOpen
        else some (sel, decl, afterClose)

/-- The `while ((match = rulePattern.exec(fullCSS)) !== null)` loop of
`extract`: trimmed selector/declaration pairs, skipping matches whose
trimmed selector or declaration block is empty. -/
def cssRuleList : Nat → JSString → List (JSString × JSString)
  | 0, _ => []
  | fuel + 1, s =>
    match findRuleMatch s.length s with
    | none => []
    | some (sel, decl, rest) =>
      let selector := jsTrim sel
      let declarations := jsTrim decl
      if selector = [] ∨ declarations = [] then cssRuleList fuel rest
      else (selector, declarations) :: cssRuleList fuel rest

/-- ``const rule = `${selector} { ${declarations} }` ``. -/
def formatRule (r : JSString × JSString) : JSString :=
  r.1 ++ ' ' :: '\x7b' :: ' ' :: r.2 ++ [' ', '\x7d']

/-- `selector.split(',').some((sel) => this.isCritical(sel.trim()))`. -/
def ruleIsCritical (cfg : CriticalConfig) (st : CritState) (selector : JSString) : Bool :=
  (jsSplitChar ',' selector).any fun s => isCritical cfg st (jsTrim s)

/-- The classification loop of `extract`: push each formatted rule onto the
critical or the non-critical list. -/
def extractPartition (cfg : CriticalConfig) (st : CritState) :
    List (JSString × JSString) → List JSString × List JSString
  | [] => ([], [])
  | r :: rest =>
    let acc := extractPartition cfg st rest
    if ruleIsCritical cfg st r.1 then (formatRule r :: acc.1, acc.2)
    else (acc.1, formatRule r :: acc.2)

/-- `CriticalCSSExtractor.extract`. -/
def extract (cfg : CriticalConfig) (st : CritState) (fullCSS : JSString) :
    JSString × JSString :=
  if cfg.enabled = false then ([], fullCSS)
  else
    let part := extractPartition cfg st (cssRuleList fullCSS.length fullCSS)
    (joinSep ['\n'] part.1, joinSep ['\n'] part.2)

/-! #### `autoDetect` -/

/-- JavaScript `\w`. -/
def isWordChar (c : Char) : Bool := c.isAlphanum || c == '_'

/-- An anchored literal prefix followed by a word boundary
(`^lit\b` where `lit` ends in a word character). -/
def startsWB (lit s : JSString) : Bool :=
  lit.isPrefixOf s &&
    (match s.drop lit.length with
     | [] => true
     | c :: _ => !isWordChar c)

/-- The `criticalPatterns` list of `autoDetect`. -/
def matchesCriticalPattern (s : JSString) : Bool :=
  s == "*".data || s == "html".data || s == "body".data
    || startsWB ".container".data s || startsWB ".wrapper".data s
    || startsWB ".layout".data s
    || startsWB "header".data s || startsWB "nav".data s
    || startsWB ".header".data s || startsWB ".navbar".data s
    || startsWB ".logo".data s || startsWB ".brand".data s
    || startsWB ".hero".data s || startsWB ".banner".data s
    || startsWB "h1".data s || startsWB ".title".data s
    || startsWB ".heading".data s
    || containsSub "@font-face".data s

/-- The selector loop of `autoDetect` (same scanner; only the trimmed
selector is used and empty selectors are skipped). -/
def autoSelectors : Nat → JSString → List JSString
  | 0, _ => []
  | fuel + 1, s =>
    match findRuleMatch s.length s with
    | none => []
    | some (sel, _, rest) =>
      let selector := jsTrim sel
      if selector = [] then autoSelectors fuel rest
      else selector :: autoSelectors fuel rest

/-- `CriticalCSSExtractor.autoDetect`. -/
def autoDetect (st : CritState) (css : JSString) : CritState :=
  (autoSelectors css.length css).foldl
    (fun st sel =>
      if matchesCriticalPattern sel then markCritical st sel
      else markNonCritical st sel)
    st

/-- The public mutating operations of a `CriticalCSSExtractor`. -/
inductive CritOp where
  | markC (selector : JSString)
  | markNC (selector : JSString)
  | auto (css : JSString)
  | reset

/-- One extractor operation. -/
def applyCritOp (st : CritState) : CritOp → CritState
  | .markC s => markCritical st s
  | .markNC s => markNonCritical st s
  | .auto css => autoDetect st css
  | .reset => ⟨[], []⟩

/-- A whole operation sequence, from a fresh extractor. -/
def applyCritOps (ops : List CritOp) : CritState :=
  ops.foldl applyCritOp initialCritState

/-! ### C10: the two selector sets stay disjoint -/

theorem mem_setAdd {α : Type} [DecidableEq α] {x s : α} {l : List α}
    (h : x ∈ setAdd s l) : x = s ∨ x ∈ l := by
  unfold setAdd at h
  split at h
  · exact Or.inr h
  · rcases List.mem_append.mp h with h1 | h1
    · exact Or.inr h1
    · exact Or.inl (List.mem_singleton.mp h1)

theorem mem_setDel {α : Type} [DecidableEq α] {x s : α} {l : List α}
    (h : x ∈ setDel s l) : x ∈ l ∧ x ≠ s := by
  unfold setDel at h
  have := List.mem_filter.mp h
  exact ⟨this.1, by simpa using this.2⟩

theorem not_mem_setDel {α : Type} [DecidableEq α] {x s : α} {l : List α}
    (h : x ∉ l) : x ∉ setDel s l :=
  fun hc => h (mem_setDel hc).1

/-- The invariant: no selector lives in both extractor sets. -/
def DisjointSels (st : CritState) : Prop :=
  ∀ s, s ∈ st.criticalSelectors → s ∉ st.nonCriticalSelectors

theorem disjointSels_markCritical {st : CritState} (h : DisjointSels st)
    (sel : JSString) : DisjointSels (markCritical st sel) := by
  intro s hs
  rcases mem_setAdd hs with h1 | h1
  · subst h1
    intro hc
    exact (mem_setDel hc).2 rfl
  · exact not_mem_setDel (h s h1)

theorem disjointSels_markNonCritical {st : CritState} (h : DisjointSels st)
    (sel : JSString) : DisjointSels (markNonCritical st sel) := by
  intro s hs
  have hdel := mem_setDel hs
  intro hc
  rcases mem_setAdd hc with h1 | h1
  · exact hdel.2 h1
  · exact h s hdel.1 h1

theorem disjointSels_markFold {sels : List JSString} :
    ∀ st, DisjointSels st →
      DisjointSels (sels.foldl
        (fun st sel =>
          if matchesCriticalPattern sel then markCritical st sel
          else markNonCritical st sel) st) := by
  induction sels with
  | nil => intro st h; exact h
  | cons sel rest ih =>
    intro st h
    simp only [List.foldl_cons]
    by_cases hm : matchesCriticalPattern sel
    · rw [if_pos hm]; exact ih _ (disjointSels_markCritical h sel)
    · rw [if_neg hm]; exact ih _ (disjointSels_markNonCritical h sel)

theorem disjointSels_applyCritOp {st : CritState} (h : DisjointSels st)
    (op : CritOp) : DisjointSels (applyCritOp st op) := by
  cases op with
  | markC s => exact disjointSels_markCritical h s
  | markNC s => exact disjointSels_markNonCritical h s
  | auto css => exact disjointSels_markFold st h
  | reset => intro s hs; simp [applyCritOp] at hs

/-- C10: after every sequence of `markCritical`, `markNonCritical`,
`autoDetect` and `reset` operations on a fresh extractor, the critical and
non-critical selector sets are disjoint — every marking operation removes
the selector from the opposite set. -/
theorem critical_noncritical_disjoint (ops : List CritOp) (sel : JSString)
    (h : sel ∈ (applyCritOps ops).criticalSelectors) :
    sel ∉ (applyCritOps ops).nonCriticalSelectors := by
  suffices hall : ∀ st, DisjointSels st → DisjointSels (ops.foldl applyCritOp st) by
    exact hall initialCritState (fun s hs => by simp [initialCritState] at hs)
      sel h
  clear h
  induction ops with
  | nil => intro st hst; exact hst
  | cons op rest ih =>
    intro st hst
    simp only [List.foldl_cons]
    exact ih (applyCritOp st op) (disjointSels_applyCritOp hst op)

/-- Witness for C10 after one `markCritical` call. -/
theorem critical_noncritical_disjoint_witness :
    "a".data ∈ (applyCritOps [CritOp.markC "a".data]).criticalSelectors
      ∧ "a".data ∉ (applyCritOps [CritOp.markC "a".data]).nonCriticalSelectors :=
  ⟨by decide, critical_noncritical_disjoint [CritOp.markC "a".data] "a".data (by decide)⟩

/-! ### C6: classification precedence -/

/-- A configuration whose force-include and exclude lists both match the
selector `a`. -/
def clashConfig : CriticalConfig := ⟨true, ["a".data], ["a".data]⟩

/-- C6 counterexample: for a selector matching both an `exclude` pattern and
a `forceInclude` pattern, `isCritical` returns `true` — the code tests
`forceInclude` before `exclude`, so explicit include beats explicit exclude,
contradicting the claimed precedence. -/
theorem isCritical_include_beats_exclude :
    isCritical clashConfig initialCritState "a".data = true := by decide

/-- C6 (amended): the classification precedence implemented by `isCritical`
is: explicit force-include beats explicit exclude, which beats membership in
the marked-critical set (the set fed by `markCritical` and `autoDetect`),
which beats the default of non-critical. -/
theorem isCritical_precedence (cfg : CriticalConfig) (st : CritState)
    (sel : JSString) :
    ((∃ pat ∈ cfg.forceInclude, containsSub pat sel = true) →
        isCritical cfg st sel = true)
      ∧ ((∀ pat ∈ cfg.forceInclude, containsSub pat sel = false) →
          (∃ pat ∈ cfg.exclude, containsSub pat sel = true) →
          isCritical cfg st sel = false)
      ∧ ((∀ pat ∈ cfg.forceInclude, containsSub pat sel = false) →
          (∀ pat ∈ cfg.exclude, containsSub pat sel = false) →
          isCritical cfg st sel = st.criticalSelectors.contains sel) := by
  refine ⟨fun hinc => ?_, fun hninc hexc => ?_, fun hninc hnexc => ?_⟩
  · have : cfg.forceInclude.any (fun pat => containsSub pat sel) = true := by
      rw [List.any_eq_true]
      obtain ⟨pat, hmem, hpat⟩ := hinc
      exact ⟨pat, hmem, hpat⟩
    simp [isCritical, this]
  · have h1 : cfg.forceInclude.any (fun pat => containsSub pat sel) = false := by
      rw [List.any_eq_false]
      intro pat hmem
      simp [hninc pat hmem]
    have h2 : cfg.exclude.any (fun pat => containsSub pat sel) = true := by
      rw [List.any_eq_true]
      obtain ⟨pat, hmem, hpat⟩ := hexc
      exact ⟨pat, hmem, hpat⟩
    simp [isCritical, h1, h2]
  · have h1 : cfg.forceInclude.any (fun pat => containsSub pat sel) = false := by
      rw [List.any_eq_false]
      intro pat hmem
      simp [hninc pat hmem]
    have h2 : cfg.exclude.any (fun pat => containsSub pat sel) = false := by
      rw [List.any_eq_false]
      intro pat hmem
      simp [hnexc pat hmem]
    simp [isCritical, h1, h2]

/-- Witness for C6 (amended), exercising the exclude branch once the
force-include list does not match. -/
theorem isCritical_precedence_witness :
    (∀ pat ∈ (⟨true, ["zz".data], ["x".data]⟩ : CriticalConfig).forceInclude,
        containsSub pat "a-x".data = false)
      ∧ (∃ pat ∈ (⟨true, ["zz".data], ["x".data]⟩ : CriticalConfig).exclude,
          containsSub pat "a-x".data = true)
      ∧ isCritical ⟨true, ["zz".data], ["x".data]⟩ initialCritState "a-x".data = false :=
  ⟨by decide, by decide,
    (isCritical_precedence ⟨true, ["zz".data], ["x".data]⟩ initialCritState
        "a-x".data).2.1 (by decide) (by decide)⟩

/-! ### C5: extraction as a partition of the rule set -/

theorem takeWhile_append_all {α : Type} {p : α → Bool} :
    ∀ {a : List α} (b : List α), (∀ c ∈ a, p c = true) →
      (a ++ b).takeWhile p = a ++ b.takeWhile p := by
  intro a
  induction a with
  | nil => intro b _; rfl
  | cons c t ih =>
    intro b h
    simp only [List.cons_append, List.takeWhile_cons, h c (List.mem_cons_self _ _)]
    simp [ih b fun x hx => h x (List.mem_cons_of_mem _ hx)]

theorem dropWhile_append_all {α : Type} {p : α → Bool} :
    ∀ {a : List α} (b : List α), (∀ c ∈ a, p c = true) →
      (a ++ b).dropWhile p = b.dropWhile p := by
  intro a
  induction a with
  | nil => intro b _; rfl
  | cons c t ih =>
    intro b h
    simp only [List.cons_append, List.dropWhile_cons, h c (List.mem_cons_self _ _)]
    exact ih b fun x hx => h x (List.mem_cons_of_mem _ hx)

/-- A rule of the modelled well-formed input format: pre-trimmed nonempty
selector and declaration block, both brace-free. -/
def wfRule (r : JSString × JSString) : Prop :=
  r.1 ≠ [] ∧ jsTrim r.1 = r.1 ∧ '\x7b' ∉ r.1 ∧ '\x7d' ∉ r.1
    ∧ r.2 ≠ [] ∧ jsTrim r.2 = r.2 ∧ '\x7b' ∉ r.2 ∧ '\x7d' ∉ r.2

instance : DecidablePred wfRule := fun r => by
  unfold wfRule; infer_instance

/-- Flat CSS text made of `selector{declarations}` rules. -/
def renderCSS (rules : List (JSString × JSString)) : JSString :=
  joinAll (rules.map fun r => r.1 ++ '\x7b' :: r.2 ++ ['\x7d'])

theorem renderCSS_cons (r : JSString × JSString) (rs : List (JSString × JSString)) :
    renderCSS (r :: rs) = r.1 ++ '\x7b' :: (r.2 ++ '\x7d' :: renderCSS rs) := by
  simp [renderCSS, joinAll, List.append_assoc]

theorem findRuleMatch_render (r : JSString × JSString)
    (rs : List (JSString × JSString)) (hwf : wfRule r) (fuel : Nat) :
    findRuleMatch (fuel + 1) (renderCSS (r :: rs)) = some (r.1, r.2, renderCSS rs) := by
  obtain ⟨hne, _, hnoOpen, _, hdne, _, hdOpen, hdClose⟩ := hwf
  rw [renderCSS_cons, findRuleMatch]
  have hselOpen : ∀ c ∈ r.1, (c != '\x7b') = true := by
    intro c hc
    exact bne_iff_ne.mpr fun he => hnoOpen (he ▸ hc)
  have hdrop : (r.1 ++ '\x7b' :: (r.2 ++ '\x7d' :: renderCSS rs)).dropWhile
      (fun c => c == '\x7b') = r.1 ++ '\x7b' :: (r.2 ++ '\x7d' :: renderCSS rs) := by
    cases hc : r.1 with
    | nil => exact absurd hc hne
    | cons c t =>
      have : (c == '\x7b') = false := by
        have : c ∈ r.1 := hc ▸ List.mem_cons_self _ _
        exact beq_eq_false_iff_ne.mpr fun he => hnoOpen (he ▸ this)
      simp [List.dropWhile_cons, this]
  rw [hdrop]
  have htake : (r.1 ++ '\x7b' :: (r.2 ++ '\x7d' :: renderCSS rs)).takeWhile
      (fun c => c != '\x7b') = r.1 := by
    rw [takeWhile_append_all _ hselOpen]
    simp [List.takeWhile_cons]
  have hdrop2 : (r.1 ++ '\x7b' :: (r.2 ++ '\x7d' :: renderCSS rs)).dropWhile
      (fun c => c != '\x7b') = '\x7b' :: (r.2 ++ '\x7d' :: renderCSS rs) := by
    rw [dropWhile_append_all _ hselOpen]
    simp [List.dropWhile_cons]
  rw [htake, hdrop2]
  have hdeclClose : ∀ c ∈ r.2, (c != '\x7d') = true := by
    intro c hc
    exact bne_iff_ne.mpr fun he => hdClose (he ▸ hc)
  have htake2 : (r.2 ++ '\x7d' :: renderCSS rs).takeWhile
      (fun c => c != '\x7d') = r.2 := by
    rw [takeWhile_append_all _ hdeclClose]
    simp [List.takeWhile_cons]
  have hdrop3 : (r.2 ++ '\x7d' :: renderCSS rs).dropWhile
      (fun c => c != '\x7d') = '\x7d' :: renderCSS rs := by
    rw [dropWhile_append_all _ hdeclClose]
    simp [List.dropWhile_cons]
  simp only [htake2, hdrop3, hdne]
  simp [hdne]

theorem renderCSS_length_ge (rules : List (JSString × JSString)) :
    rules.length ≤ (renderCSS rules).length := by
  induction rules with
  | nil => simp [renderCSS, joinAll]
  | cons r rs ih =>
    rw [renderCSS_cons]
    simp only [List.length_cons, List.length_append, List.length_cons]
    omega

theorem cssRuleList_render :
    ∀ (rules : List (JSString × JSString)) (fuel : Nat),
      (∀ r ∈ rules, wfRule r) → rules.length ≤ fuel →
      cssRuleList fuel (renderCSS rules) = rules := by
  intro rules
  induction rules with
  | nil =>
    intro fuel _ _
    cases fuel with
    | zero => rfl
    | succ f =>
      have : renderCSS [] = [] := rfl
      rw [this, cssRuleList]
      rfl
  | cons r rs ih =>
    intro fuel hwf hfuel
    cases fuel with
    | zero => simp at hfuel
    | succ f =>
      have hwfr : wfRule r := hwf r (List.mem_cons_self _ _)
      have hlen : (renderCSS (r :: rs)).length
          = ((renderCSS (r :: rs)).length - 1) + 1 := by
        have h1 : 1 ≤ (renderCSS (r :: rs)).length := by
          have := renderCSS_length_ge (r :: rs)
          simp only [List.length_cons] at this
          omega
        omega
      rw [cssRuleList, hlen, findRuleMatch_render r rs hwfr]
      show (if jsTrim r.1 = [] ∨ jsTrim r.2 = [] then
              cssRuleList f (renderCSS rs)
            else (jsTrim r.1, jsTrim r.2) :: cssRuleList f (renderCSS rs)) = r :: rs
      obtain ⟨hne, htr, _, _, hdne, htd, _, _⟩ := hwfr
      rw [htr, htd, if_neg (by push_neg; exact ⟨hne, hdne⟩)]
      rw [ih f (fun x hx => hwf x (List.mem_cons_of_mem _ hx)) (by simpa using hfuel)]

theorem extractPartition_eq (cfg : CriticalConfig) (st : CritState) :
    ∀ rules : List (JSString × JSString),
      extractPartition cfg st rules
        = ((rules.filter fun r => ruleIsCritical cfg st r.1).map formatRule,
           (rules.filter fun r => !ruleIsCritical cfg st r.1).map formatRule) := by
  intro rules
  induction rules with
  | nil => rfl
  | cons r rest ih =>
    simp only [extractPartition, ih, List.filter_cons]
    by_cases hc : ruleIsCritical cfg st r.1
    · simp [hc]
    · simp [hc]

/-- The enabled extractor configuration with no explicit lists. -/
def enabledConfig : CriticalConfig := ⟨true, [], []⟩

/-- C5 counterexample: on the input `.a{ }` (one rule with a whitespace-only
declaration block) the scanner does find the rule for selector `.a`, but
`extract` drops it — both returned texts are empty, so the rule appears in
neither bucket and the partition is not content-preserving. -/
theorem extract_loses_whitespace_rule :
    findRuleMatch (".a\x7b \x7d".data).length ".a\x7b \x7d".data
        = some (".a".data, [' '], [])
      ∧ extract enabledConfig initialCritState ".a\x7b \x7d".data = ([], []) :=
  ⟨by decide, by decide⟩

/-- C5 (amended): for flat rule sequences with nonempty, pre-trimmed,
brace-free selectors and declaration blocks, `extract` is a strict partition:
with extraction disabled everything is returned unchanged as non-critical;
with extraction enabled every input rule appears (reformatted as
`selector { declarations }`) in exactly one of the two outputs according to
`isCritical` over its comma-separated selector parts, with no rule lost or
duplicated.  Rules whose trimmed declaration block is empty are dropped. -/
theorem extract_partitions_wellformed (cfg : CriticalConfig) (st : CritState)
    (rules : List (JSString × JSString)) (hwf : ∀ r ∈ rules, wfRule r) :
    (cfg.enabled = false →
        extract cfg st (renderCSS rules) = ([], renderCSS rules))
      ∧ (cfg.enabled = true →
          extract cfg st (renderCSS rules)
            = (joinSep ['\n']
                ((rules.filter fun r => ruleIsCritical cfg st r.1).map formatRule),
               joinSep ['\n']
                ((rules.filter fun r => !ruleIsCritical cfg st r.1).map formatRule))) := by
  constructor
  · intro hdis
    simp [extract, hdis]
  · intro hen
    rw [extract, if_neg (by simp [hen])]
    rw [cssRuleList_render rules _ hwf (renderCSS_length_ge rules),
      extractPartition_eq]

/-- The rule list used as the C5 witness. -/
def partitionRules : List (JSString × JSString) :=
  [("header".data, "color:red".data), (".footer".data, "color:blue".data)]

/-- The configuration used as the C5 witness. -/
def partitionConfig : CriticalConfig := ⟨true, ["header".data], []⟩

/-- Witness for C5 (amended): a `header` rule lands in the critical text,
a `.footer` rule in the non-critical text, nothing lost. -/
theorem extract_partitions_wellformed_witness :
    (∀ r ∈ partitionRules, wfRule r)
      ∧ partitionConfig.enabled = true
      ∧ extract partitionConfig initialCritState (renderCSS partitionRules)
        = (joinSep ['\n']
            ((partitionRules.filter
                fun r => ruleIsCritical partitionConfig initialCritState r.1).map formatRule),
           joinSep ['\n']
            ((partitionRules.filter
                fun r => !ruleIsCritical partitionConfig initialCritState r.1).map formatRule)) :=
  ⟨by decide, rfl,
    (extract_partitions_wellformed partitionConfig initialCritState
        partitionRules (by decide)).2 rfl⟩

/-! ### Style values and CSS value normalization
(`normalizeCSSValue` and friends from the babel plugin's CSS helpers,
src/unnamed/part_002) -/

/-- JavaScript numbers, modelled as (unreduced) fractions of integers.
Every numeric value in this development is a binary-exact double, on which
the double arithmetic performed by the source (`value * 0.25`, `value * 10`)
is exact rational arithmetic.  Keeping fractions unreduced avoids any
dependence on gcd normalization; the rendering below only uses floor and
subtraction, which are representation-independent. -/
structure JSNum where
  num : Int
  den : Nat
deriving DecidableEq

/-- Exact product of two JavaScript numbers. -/
def JSNum.mul (a b : JSNum) : JSNum := ⟨a.num * b.num, a.den * b.den⟩

/-- Negation. -/
def JSNum.neg (a : JSNum) : JSNum := ⟨-a.num, a.den⟩

/-- `⌊a⌋` (the denominator is always positive in this development). -/
def JSNum.floor (a : JSNum) : Int := a.num.fdiv a.den

/-- `a - k` for an integer `k`. -/
def JSNum.subInt (a : JSNum) (k : Int) : JSNum := ⟨a.num - k * a.den, a.den⟩

/-- `a = 0`. -/
def JSNum.isZero (a : JSNum) : Bool := a.num == 0

/-- `a < 0`. -/
def JSNum.isNeg (a : JSNum) : Bool := a.num < 0

/-- The number literal `0.25` of `normalizeCSSValue`. -/
def quarter : JSNum := ⟨1, 4⟩

/-- An integer-valued JavaScript number. -/
def JSNum.ofInt (k : Int) : JSNum := ⟨k, 1⟩

/-- JavaScript values as they flow through the style pipeline: strings,
numbers, booleans, `null`/`undefined`, and nested plain objects (pseudo and
responsive blocks). -/
inductive StyleVal where
  | str (s : JSString)
  | num (q : JSNum)
  | bool (b : Bool)
  | null
  | obj (entries : List (JSString × StyleVal))

/-- Decimal rendering of the fractional part, one digit per `× 10` step.
Twenty digits of fuel are ample for every value in this development. -/
def fracDigits : Nat → JSNum → JSString
  | 0, _ => []
  | fuel + 1, q =>
    if q.isZero then []
    else
      let q10 := q.mul ⟨10, 1⟩
      digitChar q10.floor.toNat :: fracDigits fuel (q10.subInt q10.floor)

/-- Rendering of a nonnegative number. -/
def jsNumToStringNN (q : JSNum) : JSString :=
  natToDec q.floor.toNat ++
    (match fracDigits 20 (q.subInt q.floor) with
     | [] => []
     | ds => '.' :: ds)

/-- JavaScript number-to-string conversion, modelled for numbers with a
terminating decimal expansion of at most twenty digits — which covers every
value handled in this development; on those, JavaScript's shortest
round-trip printing produces exactly this decimal form. -/
def jsNumToString (q : JSNum) : JSString :=
  if q.isNeg then '-' :: jsNumToStringNN q.neg else jsNumToStringNN q

/-- `const spacingProps = ['p', 'padding', 'm', 'margin', 'gap', 'space']`. -/
def spacingProps : List JSString :=
  ["p".data, "padding".data, "m".data, "margin".data, "gap".data, "space".data]

/-- The `unitlessProps` list of `normalizeCSSValue`. -/
def unitlessProps : List JSString :=
  ["opacity".data, "zIndex".data, "fontWeight".data, "lineHeight".data,
   "flex".data, "flexGrow".data, "flexShrink".data, "order".data]

/-- `normalizeCSSValue(property, value, tokens?)`. -/
def normalizeCSSValue (property : JSString) (value : StyleVal)
    (tokens : Option (List (JSString × JSString))) : JSString :=
  match value with
  | .null => []
  | .str s =>
    match tokens with
    | some tks =>
      if s.take 1 = ['$'] then
        match mapGet (s.drop 1) tks with
        | some tv => if tv = [] then s else tv
        | none => s
      else s
    | none => s
  | .num q =>
    if spacingProps.any (fun pref => pref.isPrefixOf property) then
      jsNumToString (q.mul quarter) ++ "rem".data
    else if unitlessProps.contains property then
      jsNumToString q
    else
      jsNumToString q ++ "px".data
  | .bool b => if b then "true".data else "false".data
  | .obj _ => "[object Object]".data

/-! ### C4: the three-way numeric rule -/

/-- The spacing test `spacingProps.some(prop => property.startsWith(prop))`
is a pure prefix test: it fires exactly on property names starting with
`p`, `m`, `gap` or `space` (the `padding`/`margin` entries are subsumed by
the single-letter ones). -/
theorem spacing_detect (property : JSString) :
    spacingProps.any (fun pref => pref.isPrefixOf property) = true
      ↔ ("p".data.isPrefixOf property = true
          ∨ "m".data.isPrefixOf property = true
          ∨ "gap".data.isPrefixOf property = true
          ∨ "space".data.isPrefixOf property = true) := by
  simp only [spacingProps, List.any_cons, List.any_nil, Bool.or_eq_true,
    Bool.or_false]
  constructor
  · rintro (h | h | h | h | h | h)
    · exact Or.inl h
    · refine Or.inl (List.isPrefixOf_iff_prefix.mpr ?_)
      exact List.IsPrefix.trans (by decide) (List.isPrefixOf_iff_prefix.mp h)
    · exact Or.inr (Or.inl h)
    · refine Or.inr (Or.inl (List.isPrefixOf_iff_prefix.mpr ?_))
      exact List.IsPrefix.trans (by decide) (List.isPrefixOf_iff_prefix.mp h)
    · exact Or.inr (Or.inr (Or.inl h))
    · exact Or.inr (Or.inr (Or.inr h))
  · rintro (h | h | h | h)
    · exact Or.inl h
    · exact Or.inr (Or.inr (Or.inl h))
    · exact Or.inr (Or.inr (Or.inr (Or.inr (Or.inl h))))
    · exact Or.inr (Or.inr (Or.inr (Or.inr (Or.inr h))))

/-- C4 counterexample: `maxWidth` is not in the margin/padding/gap spacing
families, yet a bare `100` normalizes to `25rem` instead of the claimed
`100px` — the code classifies by name prefix (`m`), not by family. -/
theorem normalize_maxWidth_scaled :
    normalizeCSSValue "maxWidth".data (.num (JSNum.ofInt 100)) none = "25rem".data
      ∧ normalizeCSSValue "maxWidth".data (.num (JSNum.ofInt 100)) none ≠ "100px".data :=
  ⟨by decide, by decide⟩

/-- C4 (amended): bare numbers are normalized by a three-way rule keyed on
the (camelCase) property name: names starting with `p`, `m`, `gap` or
`space` — a superset of the margin/padding/gap families that also catches
e.g. `maxWidth` or `position`, and misses `rowGap`/`columnGap` — are scaled
by the fixed 0.25 factor and suffixed `rem`; of the remaining names, exactly
`opacity`, `zIndex`, `fontWeight`, `lineHeight`, `flex`, `flexGrow`,
`flexShrink`, `order` stay bare; every other name receives a `px` suffix. -/
theorem normalizeCSSValue_number_cases (property : JSString) (q : JSNum) :
    (("p".data.isPrefixOf property = true
        ∨ "m".data.isPrefixOf property = true
        ∨ "gap".data.isPrefixOf property = true
        ∨ "space".data.isPrefixOf property = true) →
      normalizeCSSValue property (.num q) none
        = jsNumToString (q.mul quarter) ++ "rem".data)
      ∧ ((¬ ("p".data.isPrefixOf property = true
            ∨ "m".data.isPrefixOf property = true
            ∨ "gap".data.isPrefixOf property = true
            ∨ "space".data.isPrefixOf property = true)) →
          property ∈ unitlessProps →
          normalizeCSSValue property (.num q) none = jsNumToString q)
      ∧ ((¬ ("p".data.isPrefixOf property = true
            ∨ "m".data.isPrefixOf property = true
            ∨ "gap".data.isPrefixOf property = true
            ∨ "space".data.isPrefixOf property = true)) →
          property ∉ unitlessProps →
          normalizeCSSValue property (.num q) none
            = jsNumToString q ++ "px".data) := by
  refine ⟨fun h => ?_, fun hn hu => ?_, fun hn hu => ?_⟩
  · have hs : spacingProps.any (fun pref => pref.isPrefixOf property) = true :=
      (spacing_detect property).mpr h
    simp [normalizeCSSValue, hs]
  · have hs : spacingProps.any (fun pref => pref.isPrefixOf property) = false := by
      rcases hb : spacingProps.any fun pref => pref.isPrefixOf property
      · rfl
      · exact absurd ((spacing_detect property).mp hb) hn
    simp [normalizeCSSValue, hs, hu]
  · have hs : spacingProps.any (fun pref => pref.isPrefixOf property) = false := by
      rcases hb : spacingProps.any fun pref => pref.isPrefixOf property
      · rfl
      · exact absurd ((spacing_detect property).mp hb) hn
    simp [normalizeCSSValue, hs, hu]

/-- Witness for C4 (amended): `padding: 4` scales to `1rem`, matching the
repository's own test expectation. -/
theorem normalizeCSSValue_number_cases_witness :
    ("p".data.isPrefixOf "padding".data = true
        ∨ "m".data.isPrefixOf "padding".data = true
        ∨ "gap".data.isPrefixOf "padding".data = true
        ∨ "space".data.isPrefixOf "padding".data = true)
      ∧ normalizeCSSValue "padding".data (.num (JSNum.ofInt 4)) none
        = jsNumToString ((JSNum.ofInt 4).mul quarter) ++ "rem".data
      ∧ normalizeCSSValue "padding".data (.num (JSNum.ofInt 4)) none = "1rem".data :=
  ⟨by decide,
    (normalizeCSSValue_number_cases "padding".data (JSNum.ofInt 4)).1 (by decide),
    by decide⟩

/-! ### CSS helper tables (babel-plugin css-helpers, src/unnamed/part_002) -/

/-- `PROPERTY_MAP`: Silk shorthand to full CSS property names. -/
def PROPERTY_MAP : List (JSString × JSString) :=
  [("m".data, "margin".data),
   ("mt".data, "margin-top".data),
   ("mr".data, "margin-right".data),
   ("mb".data, "margin-bottom".data),
   ("ml".data, "margin-left".data),
   ("mx".data, "margin-inline".data),
   ("my".data, "margin-block".data),
   ("p".data, "padding".data),
   ("pt".data, "padding-top".data),
   ("pr".data, "padding-right".data),
   ("pb".data, "padding-bottom".data),
   ("pl".data, "padding-left".data),
   ("px".data, "padding-inline".data),
   ("py".data, "padding-block".data),
   ("w".data, "width".data),
   ("h".data, "height".data),
   ("minW".data, "min-width".data),
   ("minH".data, "min-height".data),
   ("maxW".data, "max-width".data),
   ("maxH".data, "max-height".data),
   ("bg".data, "background-color".data),
   ("bgColor".data, "background-color".data),
   ("rounded".data, "border-radius".data),
   ("roundedTop".data, "border-top-left-radius border-top-right-radius".data),
   ("roundedBottom".data, "border-bottom-left-radius border-bottom-right-radius".data),
   ("roundedLeft".data, "border-top-left-radius border-bottom-left-radius".data),
   ("roundedRight".data, "border-top-right-radius border-bottom-right-radius".data)]

/-- `PSEUDO_MAP`: pseudo-selector shorthands. -/
def PSEUDO_MAP : List (JSString × JSString) :=
  [("_hover".data, ":hover".data),
   ("_focus".data, ":focus".data),
   ("_active".data, ":active".data),
   ("_disabled".data, ":disabled".data),
   ("_visited".data, ":visited".data),
   ("_focusVisible".data, ":focus-visible".data),
   ("_focusWithin".data, ":focus-within".data),
   ("_checked".data, ":checked".data),
   ("_before".data, "::before".data),
   ("_after".data, "::after".data),
   ("_placeholder".data, "::placeholder".data),
   ("_selection".data, "::selection".data),
   ("_first".data, ":first-child".data),
   ("_last".data, ":last-child".data),
   ("_odd".data, ":nth-child(odd)".data),
   ("_even".data, ":nth-child(even)".data)]

/-- `resolveCSSProperty`: `PROPERTY_MAP[property] || camelToKebab(property)`. -/
def resolveCSSProperty (property : JSString) : JSString :=
  match mapGet property PROPERTY_MAP with
  | some full => if full = [] then camelKebab property else full
  | none => camelKebab property

/-- `resolvePseudoSelector`: `PSEUDO_MAP[pseudo] || pseudo.slice(1)`. -/
def resolvePseudoSelector (pseudo : JSString) : JSString :=
  match mapGet pseudo PSEUDO_MAP with
  | some sel => if sel = [] then pseudo.drop 1 else sel
  | none => pseudo.drop 1

/-- `isPseudoSelector`: `prop.startsWith('_')`. -/
def isPseudoSelector (prop : JSString) : Bool :=
  match prop with
  | c :: _ => c == '_'
  | [] => false

/-- `responsiveKeys` of `isResponsiveValue`. -/
def responsiveKeys : List JSString :=
  ["base".data, "sm".data, "md".data, "lg".data, "xl".data, "2xl".data]

/-- `isResponsiveValue`: a non-null object at least one of whose keys is a
responsive key. -/
def isResponsiveValue : StyleVal → Bool
  | .obj entries => entries.any fun e => responsiveKeys.contains e.1
  | _ => false

/-! ### Class-name generation and the babel plugin's atomic CSS generator
(`generateAtomicCSS` in packages/babel-plugin-silk/src/index.ts) -/

/-- JavaScript template-literal stringification `${value}`. -/
def jsToString : StyleVal → JSString
  | .str s => s
  | .num q => jsNumToString q
  | .bool b => if b then "true".data else "false".data
  | .null => "null".data
  | .obj _ => "[object Object]".data

/-- ASCII lower-casing (JS `toLowerCase` on the ASCII range). -/
def toLowerAscii (c : Char) : Char :=
  if 'A' ≤ c ∧ c ≤ 'Z' then Char.ofNat (c.toNat + 32) else c

/-- The plugin options read by the embedded generator. -/
structure PluginOptions where
  production : Bool := false
  classPrefix : Option JSString := none
  tokens : Option (List (JSString × JSString)) := none
  breakpoints : Option (List (JSString × JSString)) := none

/-- Modelled from the spec: `generateClassName`
(babel-plugin-silk/src/generators/class-name.ts) is not among the provided
sources.  It is modelled after the naming scheme that the in-source
consistency test (src/unnamed/part_008) replicates and asserts equal to the
real implementation: the MurmurHash2 of `` `${property}-${value}` `` (the
plugin always calls it without a variant), rendered as
`` `${classPrefix || 's'}${hash}` `` in production and
`` `${classPrefix ?? 'silk'}_${property}_${sanitizedValue}_${hash4}` `` in
development. -/
def generateClassName (property : JSString) (value : StyleVal)
    (opts : PluginOptions) : JSString :=
  let hash := murmurHash2 (property ++ '-' :: jsToString value)
  if opts.production then
    (match opts.classPrefix with
     | some p => if p = [] then "s".data else p
     | none => "s".data) ++ hash
  else
    let pre := opts.classPrefix.getD "silk".data
    let sanitized :=
      (((jsToString value).filter fun c => c.isAlphanum).map toLowerAscii).take 10
    pre ++ '_' :: property ++ '_' :: sanitized ++ '_' :: hash.take 4

/-- Modelled from the spec: `generateResponsiveClassName`
(babel-plugin-silk/src/generators/class-name.ts) is not among the provided
sources; modelled after the variant-aware naming scheme of the in-source
consistency test (src/unnamed/part_008), with the breakpoint as the
variant. -/
def generateResponsiveClassName (breakpoint property : JSString)
    (value : StyleVal) (opts : PluginOptions) : JSString :=
  let hash := murmurHash2 (property ++ '-' :: jsToString value ++ breakpoint)
  if opts.production then
    (match opts.classPrefix with
     | some p => if p = [] then "s".data else p
     | none => "s".data) ++ hash
  else
    let pre := opts.classPrefix.getD "silk".data
    let sanitized :=
      (((jsToString value).filter fun c => c.isAlphanum).map toLowerAscii).take 10
    pre ++ '_' :: breakpoint ++ '_' :: property ++ '_' :: sanitized
      ++ '_' :: hash.take 4

/-- `DEFAULT_BREAKPOINTS` of the babel plugin. -/
def DEFAULT_BREAKPOINTS : List (JSString × JSString) :=
  [("sm".data, "640px".data),
   ("md".data, "768px".data),
   ("lg".data, "1024px".data),
   ("xl".data, "1280px".data),
   ("2xl".data, "1536px".data)]

/-- The regular-property branch of `generateAtomicCSS`:
``const rule = `.${className} { ${cssProperty}: ${cssValue}; }` ``. -/
def genRegular (property : JSString) (value : StyleVal) (opts : PluginOptions) :
    JSString × JSString :=
  let className := generateClassName property value opts
  let cssProperty := resolveCSSProperty property
  let cssValue := normalizeCSSValue property value opts.tokens
  (className,
    '.' :: className ++ ' ' :: '\x7b' :: ' ' :: cssProperty ++ ':' :: ' ' :: cssValue
      ++ [';', ' ', '\x7d'])

/-- `rule.replace(/\{/, pseudo + ' {')`: splice the pseudo-selector in front
of the first opening brace. -/
def replaceFirstOpenBrace (repl : JSString) : JSString → JSString
  | [] => []
  | c :: rest =>
    if c == '\x7b' then repl ++ rest else c :: replaceFirstOpenBrace repl rest

/-- One rule of the responsive branch. -/
def genResponsiveRule (property breakpoint : JSString) (val : StyleVal)
    (opts : PluginOptions) : JSString × JSString :=
  let className := generateResponsiveClassName breakpoint property val opts
  let cssProperty := resolveCSSProperty property
  let cssValue := normalizeCSSValue property val opts.tokens
  let baseRule :=
    '.' :: className ++ ' ' :: '\x7b' :: ' ' :: cssProperty ++ ':' :: ' ' :: cssValue
      ++ [';', ' ', '\x7d']
  if breakpoint = "base".data then (className, baseRule)
  else
    let mediaQuery :=
      match mapGet breakpoint (opts.breakpoints.getD DEFAULT_BREAKPOINTS) with
      | some q => if q = [] then breakpoint else q
      | none => breakpoint
    (className,
      "@media (min-width: ".data ++ mediaQuery ++ ')' :: ' ' :: '\x7b' :: ' ' :: baseRule
        ++ [' ', '\x7d'])

/-- `Object.entries` of a string: index keys and single-character values
(these entries only ever reach the regular branch — their keys are digits). -/
def strEntries (s : JSString) : List (JSString × StyleVal) :=
  s.enum.map fun (e : Nat × Char) => (natToDec e.1, StyleVal.str [e.2])

mutual

/-- The entry loop of the babel plugin's `generateAtomicCSS`, threading the
call's own `cssRules` map and `classNames` array.  `Map.set` silently
replaces the rule text stored under an existing class name. -/
def genLoop (opts : PluginOptions) :
    List (JSString × StyleVal) → List (JSString × JSString) → List JSString
      → List (JSString × JSString) × List JSString
  | [], rules, names => (rules, names)
  | (property, value) :: rest, rules, names =>
    match value with
    | .null => genLoop opts rest rules names
    | v =>
      if isPseudoSelector property then
        let pseudo := resolvePseudoSelector property
        let nested := genNested opts v
        let folded := nested.1.foldl
          (fun acc e =>
            (mapSet e.1 (replaceFirstOpenBrace (pseudo ++ [' ', '\x7b']) e.2) acc.1,
             acc.2 ++ [e.1]))
          (rules, names)
        genLoop opts rest folded.1 folded.2
      else if isResponsiveValue v then
        let folded := (match v with
            | .obj es => es
            | _ => ([] : List (JSString × StyleVal))).foldl
          (fun acc (e : JSString × StyleVal) =>
            let r := genResponsiveRule property e.1 e.2 opts
            (mapSet r.1 r.2 acc.1, acc.2 ++ [r.1]))
          (rules, names)
        genLoop opts rest folded.1 folded.2
      else
        let r := genRegular property v opts
        genLoop opts rest (mapSet r.1 r.2 rules) (names ++ [r.1])

/-- The nested `generateAtomicCSS(value, options)` call of the pseudo
branch, on a fresh `cssRules` map.  `Object.entries` of a string yields
index/character entries whose digit keys always take the regular branch;
entries of numbers, booleans and `null` are empty. -/
def genNested (opts : PluginOptions) : StyleVal → List (JSString × JSString) × List JSString
  | .obj es => genLoop opts es [] []
  | .str s =>
    (strEntries s).foldl
      (fun acc e =>
        let r := genRegular e.1 e.2 opts
        (mapSet r.1 r.2 acc.1, acc.2 ++ [r.1]))
      ([], [])
  | _ => ([], [])

end

/-- The babel plugin's `generateAtomicCSS` on a style object: the pair of
the `cssRules` map (class name to rule text) and the `classNames` array. -/
def generateAtomicCSS (styles : List (JSString × StyleVal)) (opts : PluginOptions) :
    List (JSString × JSString) × List JSString :=
  genLoop opts styles [] []

/-! ### C2: two different rule texts under one identifier, silently -/

/-- The default plugin options (development mode, no prefix override, no
tokens, default breakpoints). -/
def defaultOpts : PluginOptions := ⟨false, none, none, none⟩

/-- `css({ color: 'red', _hover: { color: 'red' } })`: the same
property-value pair at base level and nested under a pseudo-state. -/
def clashStyles : List (JSString × StyleVal) :=
  [("color".data, .str "red".data),
   ("_hover".data, .obj [("color".data, .str "red".data)])]

/-- C2 failing-input evaluation: on
`{ color: 'red', _hover: { color: 'red' } }` the base declaration and the
hover declaration receive the same class name (the nested pseudo call
regenerates names with no variant), the two rule texts differ, and
`cssRules.set` silently replaces the base rule with the hover rule — the
final map holds one entry with the hover rule text, the class name is listed
twice, and no error is raised anywhere (the generator is a total function
with no failure path). -/
theorem pseudo_base_rule_collision_silent :
    (generateAtomicCSS clashStyles defaultOpts).2
        = [generateClassName "color".data (.str "red".data) defaultOpts,
           generateClassName "color".data (.str "red".data) defaultOpts]
      ∧ (generateAtomicCSS clashStyles defaultOpts).1
        = [(generateClassName "color".data (.str "red".data) defaultOpts,
            replaceFirstOpenBrace (":hover".data ++ [' ', '\x7b'])
              (genRegular "color".data (.str "red".data) defaultOpts).2)]
      ∧ replaceFirstOpenBrace (":hover".data ++ [' ', '\x7b'])
            (genRegular "color".data (.str "red".data) defaultOpts).2
          ≠ (genRegular "color".data (.str "red".data) defaultOpts).2 :=
  ⟨by decide, by decide, by decide⟩

/-! ### C8: sided-property merging (the Optimizer)

`mergeProperties` lives in the core's `optimizer.ts`, which is not among the
provided sources — only its test suite (src/unnamed/part_006) and a demo
caller (src/unnamed/part_007) are. -/

/-- Modelled from the spec: the Optimizer's per-family view of one selector
context's declarations (`optimizer.ts` is missing from the sources).  Spec
§4.2 groups declarations by sided family (margin, padding, …): the four
side properties, the two axis shorthands (`Block` = top+bottom, `Inline` =
left+right) and the family umbrella.  The in-source test suite
(src/unnamed/part_006) fixes the intended behavior on concrete inputs. -/
structure SidedProps (V : Type) where
  top : Option V := none
  right : Option V := none
  bottom : Option V := none
  left : Option V := none
  block : Option V := none
  inline : Option V := none
  family : Option V := none
deriving DecidableEq

/-- All four sides present and equal. -/
def allFourEqual {V : Type} [DecidableEq V] (p : SidedProps V) : Prop :=
  p.top ≠ none ∧ p.top = p.right ∧ p.top = p.bottom ∧ p.top = p.left

instance {V : Type} [DecidableEq V] : DecidablePred (allFourEqual (V := V)) :=
  fun p => by unfold allFourEqual; infer_instance

/-- A 3-of-4 partial match: exactly three sides present, all carrying one
value. -/
def threeOfFourMatch {V : Type} [DecidableEq V] (p : SidedProps V) : Prop :=
  (p.top = none ∧ p.right ≠ none ∧ p.right = p.bottom ∧ p.right = p.left)
    ∨ (p.right = none ∧ p.top ≠ none ∧ p.top = p.bottom ∧ p.top = p.left)
    ∨ (p.bottom = none ∧ p.top ≠ none ∧ p.top = p.right ∧ p.top = p.left)
    ∨ (p.left = none ∧ p.top ≠ none ∧ p.top = p.right ∧ p.top = p.bottom)

instance {V : Type} [DecidableEq V] : DecidablePred (threeOfFourMatch (V := V)) :=
  fun p => by unfold threeOfFourMatch; infer_instance

/-- Collapse an equal top+bottom pair into the `Block` axis shorthand. -/
def mergeTB {V : Type} [DecidableEq V] (p : SidedProps V) : SidedProps V :=
  if p.top ≠ none ∧ p.top = p.bottom ∧ p.block = none then
    { p with top := none, bottom := none, block := p.top }
  else p

/-- Collapse an equal left+right pair into the `Inline` axis shorthand. -/
def mergeLR {V : Type} [DecidableEq V] (p : SidedProps V) : SidedProps V :=
  if p.left ≠ none ∧ p.left = p.right ∧ p.inline = none then
    { p with left := none, right := none, inline := p.left }
  else p

/-- Collapse equal `Block`+`Inline` shorthands into the family umbrella. -/
def mergeBI {V : Type} [DecidableEq V] (p : SidedProps V) : SidedProps V :=
  if p.block ≠ none ∧ p.block = p.inline ∧ p.family = none then
    { p with block := none, inline := none, family := p.block }
  else p

/-- Modelled from the spec: `mergeProperties` of the Optimizer
(`optimizer.ts`, missing from the sources), per family.  Spec §4.2: if all
four sides carry an identical value, collapse to the family shorthand; if
only one axis (top+bottom, or left+right) matches, collapse to that axis's
shorthand; partial (3-of-4) matches are left unmerged — no guessing.  Equal
`Block`+`Inline` axis shorthands collapse to the family umbrella (test:
`{marginBlock: 4, marginInline: 4}` → `{margin: 4}`). -/
def mergeSided {V : Type} [DecidableEq V] (p : SidedProps V) : SidedProps V :=
  if threeOfFourMatch p then p
  else if allFourEqual p then
    { top := none, right := none, bottom := none, left := none,
      block := p.block, inline := p.inline, family := p.top }
  else mergeBI (mergeLR (mergeTB p))

/-- The effective top value under CSS longhand-over-shorthand resolution. -/
def effTop {V : Type} (p : SidedProps V) : Option V := p.top <|> p.block <|> p.family

/-- The effective right value. -/
def effRight {V : Type} (p : SidedProps V) : Option V := p.right <|> p.inline <|> p.family

/-- The effective bottom value. -/
def effBottom {V : Type} (p : SidedProps V) : Option V := p.bottom <|> p.block <|> p.family

/-- The effective left value. -/
def effLeft {V : Type} (p : SidedProps V) : Option V := p.left <|> p.inline <|> p.family

/-- The conflict-free inputs (spec §4.2: when both an umbrella and specific
sides exist, `resolveConflicts` drops the stale umbrella before any merge
attempt): no family umbrella, and no axis shorthand alongside its own
sides. -/
def WFSided {V : Type} (p : SidedProps V) : Prop :=
  p.family = none
    ∧ (p.block ≠ none → p.top = none ∧ p.bottom = none)
    ∧ (p.inline ≠ none → p.left = none ∧ p.right = none)

instance {V : Type} [DecidableEq V] : DecidablePred (WFSided (V := V)) :=
  fun p => by unfold WFSided; infer_instance

theorem effTop_mergeTB {V : Type} [DecidableEq V] (p : SidedProps V) :
    effTop (mergeTB p) = effTop p := by
  unfold mergeTB effTop
  split
  · next h =>
    obtain ⟨h1, _, h3⟩ := h
    cases ht : p.top with
    | none => exact absurd ht h1
    | some v => simp [h3, ht]
  · rfl

theorem effBottom_mergeTB {V : Type} [DecidableEq V] (p : SidedProps V) :
    effBottom (mergeTB p) = effBottom p := by
  unfold mergeTB effBottom
  split
  · next h =>
    obtain ⟨h1, h2, h3⟩ := h
    cases ht : p.top with
    | none => exact absurd ht h1
    | some v => simp [h3, ht, ← h2]
  · rfl

theorem effRight_mergeTB {V : Type} [DecidableEq V] (p : SidedProps V) :
    effRight (mergeTB p) = effRight p := by
  unfold mergeTB effRight
  split <;> rfl

theorem effLeft_mergeTB {V : Type} [DecidableEq V] (p : SidedProps V) :
    effLeft (mergeTB p) = effLeft p := by
  unfold mergeTB effLeft
  split <;> rfl

theorem effLeft_mergeLR {V : Type} [DecidableEq V] (p : SidedProps V) :
    effLeft (mergeLR p) = effLeft p := by
  unfold mergeLR effLeft
  split
  · next h =>
    obtain ⟨h1, _, h3⟩ := h
    cases hl : p.left with
    | none => exact absurd hl h1
    | some v => simp [h3, hl]
  · rfl

theorem effRight_mergeLR {V : Type} [DecidableEq V] (p : SidedProps V) :
    effRight (mergeLR p) = effRight p := by
  unfold mergeLR effRight
  split
  · next h =>
    obtain ⟨h1, h2, h3⟩ := h
    cases hl : p.left with
    | none => exact absurd hl h1
    | some v => simp [h3, hl, ← h2]
  · rfl

theorem effTop_mergeLR {V : Type} [DecidableEq V] (p : SidedProps V) :
    effTop (mergeLR p) = effTop p := by
  unfold mergeLR effTop
  split <;> rfl

theorem effBottom_mergeLR {V : Type} [DecidableEq V] (p : SidedProps V) :
    effBottom (mergeLR p) = effBottom p := by
  unfold mergeLR effBottom
  split <;> rfl

theorem effTop_mergeBI {V : Type} [DecidableEq V] (p : SidedProps V) :
    effTop (mergeBI p) = effTop p := by
  unfold mergeBI effTop
  split
  · next h =>
    obtain ⟨h1, _, h3⟩ := h
    cases hb : p.block with
    | none => exact absurd hb h1
    | some v => cases p.top <;> simp [h3, hb]
  · rfl

theorem effBottom_mergeBI {V : Type} [DecidableEq V] (p : SidedProps V) :
    effBottom (mergeBI p) = effBottom p := by
  unfold mergeBI effBottom
  split
  · next h =>
    obtain ⟨h1, _, h3⟩ := h
    cases hb : p.block with
    | none => exact absurd hb h1
    | some v => cases p.bottom <;> simp [h3, hb]
  · rfl

theorem effRight_mergeBI {V : Type} [DecidableEq V] (p : SidedProps V) :
    effRight (mergeBI p) = effRight p := by
  unfold mergeBI effRight
  split
  · next h =>
    obtain ⟨h1, h2, h3⟩ := h
    cases hb : p.block with
    | none => exact absurd hb h1
    | some v => cases p.right <;> simp [h3, hb, ← h2]
  · rfl

theorem effLeft_mergeBI {V : Type} [DecidableEq V] (p : SidedProps V) :
    effLeft (mergeBI p) = effLeft p := by
  unfold mergeBI effLeft
  split
  · next h =>
    obtain ⟨h1, h2, h3⟩ := h
    cases hb : p.block with
    | none => exact absurd hb h1
    | some v => cases p.left <;> simp [h3, hb, ← h2]
  · rfl

theorem mergeSided_three {V : Type} [DecidableEq V] {p : SidedProps V}
    (h : threeOfFourMatch p) : mergeSided p = p := by
  unfold mergeSided
  rw [if_pos h]

theorem wfSided_block_none {V : Type} {p : SidedProps V} (hwf : WFSided p)
    (ht : p.top ≠ none) : p.block = none := by
  rcases hb : p.block with _ | b
  · rfl
  · exact absurd (hwf.2.1 (by simp [hb])).1 ht

theorem wfSided_inline_none {V : Type} {p : SidedProps V} (hwf : WFSided p)
    (hl : p.left ≠ none) : p.inline = none := by
  rcases hi : p.inline with _ | b
  · rfl
  · exact absurd (hwf.2.2 (by simp [hi])).1 hl

theorem mergeSided_allFour {V : Type} [DecidableEq V] {p : SidedProps V} {v : V}
    (hwf : WFSided p) (h1 : p.top = some v) (h2 : p.right = some v)
    (h3 : p.bottom = some v) (h4 : p.left = some v) :
    mergeSided p
      = { top := none, right := none, bottom := none, left := none,
          block := none, inline := none, family := some v } := by
  have hall : allFourEqual p :=
    ⟨by simp [h1], by rw [h1, h2], by rw [h1, h3], by rw [h1, h4]⟩
  have hnot3 : ¬ threeOfFourMatch p := by
    rintro (⟨hn, _⟩ | ⟨hn, _⟩ | ⟨hn, _⟩ | ⟨hn, _⟩)
    · rw [h1] at hn; cases hn
    · rw [h2] at hn; cases hn
    · rw [h3] at hn; cases hn
    · rw [h4] at hn; cases hn
  have hb : p.block = none := wfSided_block_none hwf (by simp [h1])
  have hi : p.inline = none := wfSided_inline_none hwf (by simp [h4])
  unfold mergeSided
  rw [if_neg hnot3, if_pos hall, hb, hi, h1]

theorem mergeSided_axis {V : Type} [DecidableEq V] {p : SidedProps V} {v : V}
    (hwf : WFSided p) (h1 : p.top = some v) (h3 : p.bottom = some v)
    (hi : p.inline = none) (hn4 : ¬ allFourEqual p) (hn3 : ¬ threeOfFourMatch p) :
    (mergeSided p).block = some v ∧ (mergeSided p).top = none
      ∧ (mergeSided p).bottom = none := by
  have hb : p.block = none := wfSided_block_none hwf (by simp [h1])
  unfold mergeSided
  rw [if_neg hn3, if_neg hn4]
  rcases hlv : p.left with _ | w
  · simp [mergeTB, mergeLR, mergeBI, h1, h3, hb, hi, hlv]
  · rcases hrv : p.right with _ | u
    · simp [mergeTB, mergeLR, mergeBI, h1, h3, hb, hi, hlv, hrv]
    · by_cases hwu : w = u
      · subst hwu
        have hvw : v ≠ w := by
          intro he
          subst he
          exact hn4 ⟨by simp [h1], by rw [h1, hrv], by rw [h1, h3], by rw [h1, hlv]⟩
        simp [mergeTB, mergeLR, mergeBI, h1, h3, hb, hi, hlv, hrv, hvw]
      · simp [mergeTB, mergeLR, mergeBI, h1, h3, hb, hi, hlv, hrv, hwu]

theorem mergeSided_lossless {V : Type} [DecidableEq V] {p : SidedProps V}
    (hwf : WFSided p) :
    effTop (mergeSided p) = effTop p ∧ effRight (mergeSided p) = effRight p
      ∧ effBottom (mergeSided p) = effBottom p
      ∧ effLeft (mergeSided p) = effLeft p := by
  unfold mergeSided
  split
  · exact ⟨rfl, rfl, rfl, rfl⟩
  · split
    · next hall =>
      obtain ⟨ht, hr, hb, hl⟩ := hall
      rcases htv : p.top with _ | v
      · exact absurd htv ht
      have hbn : p.block = none := wfSided_block_none hwf (by simp [htv])
      have hin : p.inline = none := wfSided_inline_none hwf
        (by rw [← hl, htv]; simp)
      refine ⟨?_, ?_, ?_, ?_⟩ <;>
        simp [effTop, effRight, effBottom, effLeft, hbn, hin, htv,
          ← hr, ← hb, ← hl]
    · refine ⟨?_, ?_, ?_, ?_⟩
      · rw [effTop_mergeBI, effTop_mergeLR, effTop_mergeTB]
      · rw [effRight_mergeBI, effRight_mergeLR, effRight_mergeTB]
      · rw [effBottom_mergeBI, effBottom_mergeLR, effBottom_mergeTB]
      · rw [effLeft_mergeBI, effLeft_mergeLR, effLeft_mergeTB]

/-- C8: sided-property merging is lossless and exact, on conflict-free
inputs of one selector context: (i) four identical sides collapse to the
family shorthand; (ii) an equal top+bottom axis (with no pre-existing
`Inline` shorthand) collapses to the `Block` axis shorthand when neither the
all-four nor the 3-of-4 case applies; (iii) a 3-of-4 partial match is left
completely unmerged; (iv) the merged output resolves to the same effective
per-side values as the unmerged input. -/
theorem merge_lossless_exact {V : Type} [DecidableEq V] (p : SidedProps V) (v : V) :
    (WFSided p → p.top = some v → p.right = some v → p.bottom = some v →
        p.left = some v →
        mergeSided p
          = { top := none, right := none, bottom := none, left := none,
              block := none, inline := none, family := some v })
      ∧ (WFSided p → p.top = some v → p.bottom = some v → p.inline = none →
          ¬ allFourEqual p → ¬ threeOfFourMatch p →
          (mergeSided p).block = some v ∧ (mergeSided p).top = none
            ∧ (mergeSided p).bottom = none)
      ∧ (threeOfFourMatch p → mergeSided p = p)
      ∧ (WFSided p →
          effTop (mergeSided p) = effTop p ∧ effRight (mergeSided p) = effRight p
            ∧ effBottom (mergeSided p) = effBottom p
            ∧ effLeft (mergeSided p) = effLeft p) :=
  ⟨fun hwf h1 h2 h3 h4 => mergeSided_allFour hwf h1 h2 h3 h4,
   fun hwf h1 h3 hi hn4 hn3 => mergeSided_axis hwf h1 h3 hi hn4 hn3,
   mergeSided_three,
   fun hwf => mergeSided_lossless hwf⟩

/-- The four-equal-sides input of the witness
(`{marginTop: 4, marginRight: 4, marginBottom: 4, marginLeft: 4}`). -/
def fourSides : SidedProps Nat :=
  ⟨some 4, some 4, some 4, some 4, none, none, none⟩

/-- Witness for C8 (clause i): four equal margins collapse to `margin`. -/
theorem merge_lossless_exact_witness :
    WFSided fourSides
      ∧ mergeSided fourSides
        = { top := none, right := none, bottom := none, left := none,
            block := none, inline := none, family := some 4 } :=
  ⟨by decide,
    (merge_lossless_exact fourSides 4).1 (by decide) rfl rfl rfl rfl⟩

/-- Conformance with the in-source Optimizer test
`{marginTop: 4, marginBottom: 4} → {marginBlock: 4}`. -/
theorem mergeSided_matches_test_axis :
    mergeSided (⟨some 4, none, some 4, none, none, none, none⟩ : SidedProps Nat)
      = ⟨none, none, none, none, some 4, none, none⟩ := by decide

/-- Conformance with the in-source Optimizer test
`{marginLeft: 2, marginRight: 2} → {marginInline: 2}`. -/
theorem mergeSided_matches_test_inline :
    mergeSided (⟨none, some 2, none, some 2, none, none, none⟩ : SidedProps Nat)
      = ⟨none, none, none, none, none, some 2, none⟩ := by decide

/-- Conformance with the in-source Optimizer test
`{marginBlock: 4, marginInline: 4} → {margin: 4}`. -/
theorem mergeSided_matches_test_axes_combine :
    mergeSided (⟨none, none, none, none, some 4, some 4, none⟩ : SidedProps Nat)
      = ⟨none, none, none, none, none, none, some 4⟩ := by decide

/-- Conformance with the in-source Optimizer test
`{marginTop: 4, marginBottom: 8}` stays unmerged. -/
theorem mergeSided_matches_test_unequal :
    mergeSided (⟨some 4, none, some 8, none, none, none, none⟩ : SidedProps Nat)
      = ⟨some 4, none, some 8, none, none, none, none⟩ := by decide

/-- Conformance with the in-source demo
`{pt: 2, pr: 4, pb: 2, pl: 4} → {paddingBlock: 2, paddingInline: 4}`. -/
theorem mergeSided_matches_demo_two_axes :
    mergeSided (⟨some 2, some 4, some 2, some 4, none, none, none⟩ : SidedProps Nat)
      = ⟨none, none, none, none, some 2, some 4, none⟩ := by decide

end Silk
